import Mathlib

/-!
Verification development for the s3unzip zip-catalog reader
(src/s3unzip/s3unzip.py).

Shallow embedding conventions:
- Byte streams are `List Nat` (each element a byte value 0..255); `read n`
  becomes `take n` / `drop n`, matching Python stream semantics where a
  short read returns the bytes that remain.
- `struct.unpack` on a buffer of the wrong size raises `struct.error`;
  fallible code is embedded as `Except String`.
- Character-set detection of names and comments (the external `chardet`
  collaborator) is modelled as keeping the raw bytes: catalog keys and
  comments are byte lists, converted to text only for display.
- `datetime.datetime(...)` construction validates its arguments; the
  embedding checks the same Gregorian-calendar conditions and fails with
  `ValueError` exactly when the constructor would raise.
- Python `dict` insertion semantics (a repeated key keeps its original
  position but takes the new value) are embedded as `dictInsert` on
  association lists.
-/

/-- Little-endian value of a byte list (least significant byte first). -/
def leNum : List Nat → Nat
  | [] => 0
  | b :: t => b + 256 * leNum t

/-- Two-byte little-endian encoding of a value below 2^16. -/
def le16 (n : Nat) : List Nat := [n % 256, n / 256 % 256]

/-- Four-byte little-endian encoding of a value below 2^32. -/
def le32 (n : Nat) : List Nat :=
  [n % 256, n / 256 % 256, n / 2 ^ 16 % 256, n / 2 ^ 24 % 256]

/-- Eight-byte little-endian encoding of a value below 2^64. -/
def le64 (n : Nat) : List Nat :=
  [n % 256, n / 256 % 256, n / 2 ^ 16 % 256, n / 2 ^ 24 % 256,
   n / 2 ^ 32 % 256, n / 2 ^ 40 % 256, n / 2 ^ 48 % 256, n / 2 ^ 56 % 256]

/-- Python `bytes.find`: index of the first occurrence of `pat`, `none` when
absent (the Python code uses -1 for absence). -/
def findSub (pat : List Nat) : List Nat → Option Nat
  | [] => if pat = [] then some 0 else none
  | a :: t => if pat.isPrefixOf (a :: t) then some 0 else (findSub pat t).map (· + 1)

/-- Association-list lookup, first match wins (Python dict lookup). -/
def lookupA {κ α : Type} [DecidableEq κ] (l : List (κ × α)) (k : κ) : Option α :=
  match l with
  | [] => none
  | (k', v) :: t => if k' = k then some v else lookupA t k

/-- Python dict assignment `d[k] = v`: an existing key keeps its position and
takes the new value, a new key is appended at the end. -/
def dictInsert {κ α : Type} [DecidableEq κ] (k : κ) (v : α) : List (κ × α) → List (κ × α)
  | [] => [(k, v)]
  | (k', v') :: t => if k' = k then (k, v) :: t else (k', v') :: dictInsert k v t

/-- Decoded timestamps from a Universal-time (0x5455) extra field:
seconds values of mod/acc/cre time, each optional. -/
structure TimeFields where
  mod_time : Option Nat
  acc_time : Option Nat
  cre_time : Option Nat
deriving DecidableEq, Repr

/-- Decoded Unix-ownership (0x7875) extra field. -/
structure UnixFields where
  version : Nat
  uid : Option Nat
  gid : Option Nat
deriving DecidableEq, Repr

/-- Decoded zip64 (0x0001) extra field; optional fields are present exactly
when the declared payload length reaches them. -/
structure Zip64Fields where
  uncomp_len : Nat
  comp_len : Option Nat
  start : Option Nat
  disk_num : Option Nat
deriving DecidableEq, Repr

/-- Value stored in the extra-field dictionary for one sub-record id. -/
inductive ExtraVal where
  | time (t : TimeFields)
  | unix (u : UnixFields)
  | zip64 (z : Zip64Fields)
  | raw (bs : List Nat)
deriving DecidableEq, Repr

/-- The four header fields a zip64 extra field may overwrite
(`overwrite.update` in `parse_extra_fields`). -/
structure Ow where
  uncomp_len : Nat
  comp_len : Nat
  start : Nat
  disk_num : Nat
deriving DecidableEq, Repr

/-- Effect of `overwrite.update(zip64extra)`: every key present in the decoded
zip64 dict replaces the header's value, absent keys leave it unchanged. -/
def applyZip64 (z : Zip64Fields) (ow : Ow) : Ow :=
  { uncomp_len := z.uncomp_len
    comp_len := z.comp_len.getD ow.comp_len
    start := z.start.getD ow.start
    disk_num := z.disk_num.getD ow.disk_num }

/-- Embeds `_extra_field_universal_time`.  In a central-directory record the
code always stores a mod_time (0 seconds when the declared length is not
greater than 1).  In a local-file record a leading flag byte gates the three
timestamps; an empty payload hits `hbytes[0]` and raises IndexError. -/
def _extra_field_universal_time (hlen : Nat) (hbytes : List Nat) (in_cd : Bool) :
    Except String TimeFields :=
  if in_cd then
    .ok ⟨some (if 1 < hlen then leNum ((hbytes.drop 1).take 4) else 0), none, none⟩
  else
    match hbytes with
    | [] => .error "IndexError"
    | flags :: rest =>
      let modv := if flags &&& 1 ≠ 0 then some (leNum (rest.take 4)) else none
      let b1 := if flags &&& 1 ≠ 0 then (if 3 < rest.length then rest.drop 4 else rest) else rest
      let accv := if flags &&& 2 ≠ 0 then some (leNum (b1.take 4)) else none
      let b2 := if flags &&& 2 ≠ 0 then (if 3 < b1.length then b1.drop 4 else b1) else b1
      let crev := if flags &&& 4 ≠ 0 then some (leNum (b2.take 4)) else none
      .ok ⟨modv, accv, crev⟩

/-- Embeds `_extra_field_uid_gid`, including the source's slice
`hbytes = hbytes[0:uid_len]` (which keeps the uid bytes instead of dropping
them).  Indexing an empty byte string raises IndexError. -/
def _extra_field_uid_gid (hbytes : List Nat) : Except String UnixFields :=
  match hbytes with
  | [] => .error "IndexError"
  | v :: rest =>
    if v ≠ 1 then .ok ⟨v, none, none⟩
    else
      match rest with
      | [] => .error "IndexError"
      | uid_len :: r1 =>
        let uid := leNum (r1.take uid_len)
        let b := r1.take uid_len
        match b with
        | [] => .error "IndexError"
        | gid_len :: r2 => .ok ⟨v, some uid, some (leNum (r2.take gid_len))⟩

/-- Byte count `struct.calcsize` expects for the zip64 parse map chosen from
the declared length: `<Q`, `<QQ`, `<QQQ` or `<QQQI`. -/
def requiredZipLen (hlen : Nat) : Nat :=
  if 24 < hlen then 28 else if 16 < hlen then 24 else if 8 < hlen then 16 else 8

/-- Embeds `_extra_field_zip64_extended_info`: the declared length selects how
many of the four fields are unpacked, strictly in order
uncomp_len(8) comp_len(8) start(8) disk_num(4); `struct.unpack` raises
unless the payload length equals the chosen format's size. -/
def _extra_field_zip64_extended_info (hlen : Nat) (hbytes : List Nat) :
    Except String Zip64Fields :=
  if hbytes.length ≠ requiredZipLen hlen then .error "struct.error"
  else
    .ok ⟨leNum (hbytes.take 8),
         if 8 < hlen then some (leNum ((hbytes.drop 8).take 8)) else none,
         if 16 < hlen then some (leNum ((hbytes.drop 16).take 8)) else none,
         if 24 < hlen then some (leNum ((hbytes.drop 24).take 4)) else none⟩

/-- Loop of `parse_extra_fields` with explicit fuel (every iteration consumes
at least 4 stream bytes, so `length + 1` fuel always suffices): read a
4-byte sub-record header (id, declared length), read the payload, dispatch
on the id; an unknown id stores the raw payload (with a printed notice) and
the loop continues. -/
def parse_extra_fields_loop : Nat → List Nat → List (Nat × ExtraVal) → Ow → Bool →
    Except String (List (Nat × ExtraVal) × Ow)
  | 0, _, _, _, _ => .error "fuel"
  | fuel + 1, s, acc, ow, in_cd =>
    if s = [] then .ok (acc, ow)
    else if s.length < 4 then .error "struct.error"
    else
      let hid := leNum (s.take 2)
      let hlen := leNum ((s.drop 2).take 2)
      let hbytes := (s.drop 4).take hlen
      let rest := (s.drop 4).drop hlen
      if hid = 21589 then
        match _extra_field_universal_time hlen hbytes in_cd with
        | .error e => .error e
        | .ok t => parse_extra_fields_loop fuel rest (dictInsert hid (ExtraVal.time t) acc) ow in_cd
      else if hid = 30837 then
        match _extra_field_uid_gid hbytes with
        | .error e => .error e
        | .ok u => parse_extra_fields_loop fuel rest (dictInsert hid (ExtraVal.unix u) acc) ow in_cd
      else if hid = 1 then
        match _extra_field_zip64_extended_info hlen hbytes with
        | .error e => .error e
        | .ok z =>
          parse_extra_fields_loop fuel rest (dictInsert hid (ExtraVal.zip64 z) acc)
            (applyZip64 z ow) in_cd
      else
        parse_extra_fields_loop fuel rest (dictInsert hid (ExtraVal.raw hbytes) acc) ow in_cd

/-- Embeds `parse_extra_fields`: walks the chain of sub-records, building the
id-keyed dictionary and applying zip64 overwrites to the owning header's
fields. -/
def parse_extra_fields (extra : List Nat) (ow : Ow) (in_cd : Bool) :
    Except String (List (Nat × ExtraVal) × Ow) :=
  parse_extra_fields_loop (extra.length + 1) extra [] ow in_cd

/-- Decoded legacy DOS date/time, the arguments handed to
`datetime.datetime(...)`. -/
structure DT where
  y : Nat
  mo : Nat
  d : Nat
  h : Nat
  mi : Nat
  s : Nat
deriving DecidableEq, Repr

/-- Gregorian leap-year rule used by `datetime`. -/
def leapYear (y : Nat) : Bool := (y % 4 = 0 && ¬ y % 100 = 0) || y % 400 = 0

/-- Length of a month as `datetime` validates it. -/
def daysInMonth (y m : Nat) : Nat :=
  if m = 2 then (if leapYear y then 29 else 28)
  else if m = 4 ∨ m = 6 ∨ m = 9 ∨ m = 11 then 30 else 31

/-- Conditions under which `datetime.datetime(y, mo, d, h, mi, s)` constructs
without raising ValueError. -/
def validDT (t : DT) : Bool :=
  1 ≤ t.y && t.y ≤ 9999 && 1 ≤ t.mo && t.mo ≤ 12 && 1 ≤ t.d &&
  t.d ≤ daysInMonth t.y t.mo && t.h ≤ 23 && t.mi ≤ 59 && t.s ≤ 59

/-- DOS date/time decoding formula used by `parse_central_dir_file_header`. -/
def decodeDT (time date : Nat) : DT :=
  ⟨(date >>> 9) + 1980, (date >>> 5) &&& 0xF, date &&& 0x1F,
   time >>> 11, (time >>> 5) &&& 0x3F, (time &&& 0x1F) * 2⟩

/-- Central Directory File Header after decoding, zip64 overwrites already
applied to comp_len / uncomp_len / start / disk_num. -/
structure Cdfh where
  ver : Nat
  minver : Nat
  flags : Nat
  method : Nat
  time : Nat
  date : Nat
  crc32 : Nat
  comp_len : Nat
  uncomp_len : Nat
  fname_len : Nat
  extra_len : Nat
  comment_len : Nat
  disk_num : Nat
  iattr : Nat
  eattr : Nat
  start : Nat
  fname : List Nat
  date_time : DT
  extra : List (Nat × ExtraVal)
  comment : List Nat
deriving DecidableEq, Repr

/-- Embeds `parse_central_dir_file_header`: 42 fixed little-endian bytes,
then name, date/time decode (which can raise ValueError), extra fields
(applying zip64 overwrites onto this header), then the comment. -/
def parse_central_dir_file_header (s : List Nat) : Except String (Cdfh × List Nat) :=
  if s.length < 42 then .error "struct.error"
  else
    let ver := leNum (s.take 2);          let s1 := s.drop 2
    let minver := leNum (s1.take 2);      let s2 := s1.drop 2
    let flags := leNum (s2.take 2);       let s3 := s2.drop 2
    let method := leNum (s3.take 2);      let s4 := s3.drop 2
    let time := leNum (s4.take 2);        let s5 := s4.drop 2
    let date := leNum (s5.take 2);        let s6 := s5.drop 2
    let crc32 := leNum (s6.take 4);       let s7 := s6.drop 4
    let comp_len := leNum (s7.take 4);    let s8 := s7.drop 4
    let uncomp_len := leNum (s8.take 4);  let s9 := s8.drop 4
    let fname_len := leNum (s9.take 2);   let s10 := s9.drop 2
    let extra_len := leNum (s10.take 2);  let s11 := s10.drop 2
    let comment_len := leNum (s11.take 2); let s12 := s11.drop 2
    let disk_num := leNum (s12.take 2);   let s13 := s12.drop 2
    let iattr := leNum (s13.take 2);      let s14 := s13.drop 2
    let eattr := leNum (s14.take 4);      let s15 := s14.drop 4
    let start := leNum (s15.take 4);      let s16 := s15.drop 4
    let fname := s16.take fname_len;      let s17 := s16.drop fname_len
    let dt := decodeDT time date
    if validDT dt = false then .error "ValueError"
    else
      let extra_bytes := s17.take extra_len
      let s18 := s17.drop extra_len
      match parse_extra_fields extra_bytes ⟨uncomp_len, comp_len, start, disk_num⟩ true with
      | .error e => .error e
      | .ok (em, ow) =>
        let comment := if 0 < comment_len then s18.take comment_len else []
        let s19 := if 0 < comment_len then s18.drop comment_len else s18
        .ok ({ ver := ver, minver := minver, flags := flags, method := method,
               time := time, date := date, crc32 := crc32,
               comp_len := ow.comp_len, uncomp_len := ow.uncomp_len,
               fname_len := fname_len, extra_len := extra_len,
               comment_len := comment_len, disk_num := ow.disk_num,
               iattr := iattr, eattr := eattr, start := ow.start,
               fname := fname, date_time := dt, extra := em,
               comment := comment }, s19)

/-- Classic End-Of-Central-Directory record. -/
structure Ecdr where
  disk_num : Nat
  dir_disk_num : Nat
  disk_records_num : Nat
  tot_records_num : Nat
  dir_len : Nat
  dir_start : Nat
  comment_len : Nat
  comment : List Nat
deriving DecidableEq, Repr

/-- Embeds `parse_endof_central_dir_record`: 18 fixed bytes, then the comment
when comment_len is positive. -/
def parse_endof_central_dir_record (s : List Nat) : Except String (Ecdr × List Nat) :=
  if s.length < 18 then .error "struct.error"
  else
    let disk_num := leNum (s.take 2);          let s1 := s.drop 2
    let dir_disk_num := leNum (s1.take 2);     let s2 := s1.drop 2
    let disk_records_num := leNum (s2.take 2); let s3 := s2.drop 2
    let tot_records_num := leNum (s3.take 2);  let s4 := s3.drop 2
    let dir_len := leNum (s4.take 4);          let s5 := s4.drop 4
    let dir_start := leNum (s5.take 4);        let s6 := s5.drop 4
    let comment_len := leNum (s6.take 2);      let s7 := s6.drop 2
    let comment := if 0 < comment_len then s7.take comment_len else []
    let s8 := if 0 < comment_len then s7.drop comment_len else s7
    .ok (⟨disk_num, dir_disk_num, disk_records_num, tot_records_num,
          dir_len, dir_start, comment_len, comment⟩, s8)

/-- Zip64 End-Of-Central-Directory record. -/
structure Ecdr64 where
  len : Nat
  ver : Nat
  minver : Nat
  disk_num : Nat
  dir_disk_num : Nat
  disk_records_num : Nat
  tot_records_num : Nat
  dir_len : Nat
  dir_start : Nat
  comment : List Nat
deriving DecidableEq, Repr

/-- Embeds `parse_endof_central_dir_record_zip64`: 52 fixed bytes, then a
comment when the record's own length field exceeds 52. -/
def parse_endof_central_dir_record_zip64 (s : List Nat) :
    Except String (Ecdr64 × List Nat) :=
  if s.length < 52 then .error "struct.error"
  else
    let len := leNum (s.take 8);               let s1 := s.drop 8
    let ver := leNum (s1.take 2);              let s2 := s1.drop 2
    let minver := leNum (s2.take 2);           let s3 := s2.drop 2
    let disk_num := leNum (s3.take 4);         let s4 := s3.drop 4
    let dir_disk_num := leNum (s4.take 4);     let s5 := s4.drop 4
    let disk_records_num := leNum (s5.take 8); let s6 := s5.drop 8
    let tot_records_num := leNum (s6.take 8);  let s7 := s6.drop 8
    let dir_len := leNum (s7.take 8);          let s8 := s7.drop 8
    let dir_start := leNum (s8.take 8);        let s9 := s8.drop 8
    let comment := if 52 < len then s9.take (len - 52) else []
    let s10 := if 52 < len then s9.drop (len - 52) else s9
    .ok (⟨len, ver, minver, disk_num, dir_disk_num, disk_records_num,
          tot_records_num, dir_len, dir_start, comment⟩, s10)

/-- Zip64 End-Of-Central-Directory locator. -/
structure Ecdl64 where
  disk_num : Nat
  start_zip64 : Nat
  tot_disk_num : Nat
deriving DecidableEq, Repr

/-- Embeds `parse_endof_central_dir_locator_zip64`: 16 fixed bytes. -/
def parse_endof_central_dir_locator_zip64 (s : List Nat) :
    Except String (Ecdl64 × List Nat) :=
  if s.length < 16 then .error "struct.error"
  else
    let disk_num := leNum (s.take 4);     let s1 := s.drop 4
    let start_zip64 := leNum (s1.take 8); let s2 := s1.drop 8
    let tot_disk_num := leNum (s2.take 4); let s3 := s2.drop 4
    .ok (⟨disk_num, start_zip64, tot_disk_num⟩, s3)

/-- The trailing search window `find_central_dir` reads: seek to
`-(65536+18+4)` from the end (falling back to offset 0 when the file is
shorter, via the EINVAL branch), then read 65558 bytes. -/
def trailingWindow (file : List Nat) : List Nat :=
  if file.length < 65558 then file else file.drop (file.length - 65558)

/-- Search-and-parse part of `find_central_dir`, acting on an already-read
window.  Faithfully models the missing `raise`: when a signature is absent,
the Python code builds an Exception without raising it and proceeds with
index -1, so the slice starts at byte -1+4 = 3. -/
def find_central_dir_block (block : List Nat) : Except String Nat :=
  let start := match findSub [0x50, 0x4b, 0x05, 0x06] block with
    | some i => i + 4
    | none => 3
  match parse_endof_central_dir_record ((block.drop start).take 18) with
  | .error e => .error e
  | .ok (ecdr, _) =>
    if ecdr.dir_start = 0xffffffff then
      let start64 := match findSub [0x50, 0x4b, 0x06, 0x06] block with
        | some j => j + 4
        | none => 3
      let lenBytes := (block.drop start64).take 8
      if lenBytes.length < 8 then .error "struct.error"
      else
        let lf := leNum lenBytes
        match parse_endof_central_dir_record_zip64 ((block.drop start64).take (lf + 8)) with
        | .error e => .error e
        | .ok (e64, _) => .ok e64.dir_start
    else .ok ecdr.dir_start

/-- Embeds `find_central_dir`: read the trailing window, search it for the
End-Of-Central-Directory signature and resolve the directory start offset
(zip64 override included). -/
def find_central_dir (file : List Nat) : Except String Nat :=
  find_central_dir_block (trailingWindow file)

/-- One catalog entry: what `read_central_dir` stores per file name. -/
structure CatEntry where
  position : Nat
  length : Nat
  date_time : DT
  extra : List (Nat × ExtraVal)
deriving DecidableEq, Repr

/-- Ordered name-to-entry catalog (insertion order = directory order). -/
def Catalog := List (List Nat × CatEntry)

/-- Loop of `read_central_dir` with explicit fuel: read a 4-byte signature,
dispatch on it, and stop at end of stream or at an unknown signature. -/
def read_central_dir_loop (fuel : Nat) (s : List Nat) (acc : List (List Nat × CatEntry)) :
    Option (Except String (List (List Nat × CatEntry))) :=
  match fuel with
  | 0 => none
  | fuel + 1 =>
    let head := s.take 4
    if head.length < 4 then some (.ok acc)
    else
      let header_id := leNum head
      let rest := s.drop 4
      if header_id = 0x02014b50 then
        match parse_central_dir_file_header rest with
        | .error e => some (.error e)
        | .ok (cdfh, rest') =>
          read_central_dir_loop fuel rest'
            (dictInsert cdfh.fname
              ⟨cdfh.start, cdfh.uncomp_len, cdfh.date_time, cdfh.extra⟩ acc)
      else if header_id = 0x06054b50 then
        match parse_endof_central_dir_record rest with
        | .error e => some (.error e)
        | .ok (_, rest') => read_central_dir_loop fuel rest' acc
      else if header_id = 0x06064b50 then
        match parse_endof_central_dir_record_zip64 rest with
        | .error e => some (.error e)
        | .ok (_, rest') => read_central_dir_loop fuel rest' acc
      else if header_id = 0x07064b50 then
        match parse_endof_central_dir_locator_zip64 rest with
        | .error e => some (.error e)
        | .ok (_, rest') => read_central_dir_loop fuel rest' acc
      else some (.ok acc)

/-- Embeds `read_central_dir`: walk the central directory from the stream
start, building the name-keyed catalog. -/
def read_central_dir (s : List Nat) : Except String (List (List Nat × CatEntry)) :=
  (read_central_dir_loop (s.length + 1) s []).getD (.error "fuel")

/-- Render bytes as text, one character per byte (the external chardet text
decoding, modelled as the identity on character codes). -/
def bytesToStr (l : List Nat) : String := String.mk (l.map Char.ofNat)

/-- A run of space characters. -/
def spaces (n : Nat) : String := String.mk (List.replicate n ' ')

/-- Python `f'{n:9d}'`-style right alignment in a field of width w. -/
def padNum (n w : Nat) : String :=
  spaces (w - (toString n).length) ++ toString n

/-- Python `f'{n:02d}'`-style zero padding to width w. -/
def zpad (n w : Nat) : String :=
  String.mk (List.replicate (w - (toString n).length) '0') ++ toString n

/-- `datetime.isoformat(sep=" ", timespec="minutes")`. -/
def isoMinutes (t : DT) : String :=
  zpad t.y 4 ++ "-" ++ zpad t.mo 2 ++ "-" ++ zpad t.d 2 ++ " " ++
  zpad t.h 2 ++ ":" ++ zpad t.mi 2

/-- One listing row: length right-aligned in 9 columns, two spaces, the
ISO date-time to minute precision, three spaces, the name. -/
def listingRow (p : List Nat × CatEntry) : String :=
  padNum p.2.length 9 ++ "  " ++ isoMinutes p.2.date_time ++ "   " ++ bytesToStr p.1

/-- Embeds `pretty_print_files`: the yielded lines, with the running
`file_size_sum` accumulated over the rows as in the source. -/
def pretty_print_files (archive_name : String) (files_in_zip : List (List Nat × CatEntry)) :
    List String :=
  ["Archive:  " ++ archive_name,
   "  Length      Date    Time    Name",
   "---------  ---------- -----   ----"]
  ++ files_in_zip.map listingRow
  ++ ["---------                     ----",
      padNum (files_in_zip.foldl (fun a p => a + p.2.length) 0) 9 ++
        "                     " ++ toString files_in_zip.length ++ " files"]

/-! Helper lemmas about the little-endian encodings. -/

theorem take_le16 (x : Nat) (l : List Nat) : (le16 x ++ l).take 2 = le16 x := rfl

theorem drop_le16 (x : Nat) (l : List Nat) : (le16 x ++ l).drop 2 = l := rfl

theorem take_le32 (x : Nat) (l : List Nat) : (le32 x ++ l).take 4 = le32 x := rfl

theorem drop_le32 (x : Nat) (l : List Nat) : (le32 x ++ l).drop 4 = l := rfl

theorem take_le64 (x : Nat) (l : List Nat) : (le64 x ++ l).take 8 = le64 x := rfl

theorem drop_le64 (x : Nat) (l : List Nat) : (le64 x ++ l).drop 8 = l := rfl

theorem leNum_le16 (x : Nat) (h : x < 2 ^ 16) : leNum (le16 x) = x := by
  simp [le16, leNum]; omega

theorem leNum_le32 (x : Nat) (h : x < 2 ^ 32) : leNum (le32 x) = x := by
  simp [le32, leNum]; omega

theorem leNum_le64 (x : Nat) (h : x < 2 ^ 64) : leNum (le64 x) = x := by
  simp [le64, leNum]; omega

/-- C1.  The spec says a window without the End-Of-Central-Directory
signature must make `find_central_dir` fail with DirectoryNotFound.  The
code builds `Exception('No End of Central Directory Record found')` but never
raises it (the `raise` is missing), falls through with index -1 and decodes
a record from window offset 3.  On a 22-byte all-zero file, which contains
no signature, it returns offset 0 instead of failing. -/
theorem c1_missing_raise_returns_offset :
    findSub [0x50, 0x4b, 0x05, 0x06] (trailingWindow (List.replicate 22 0)) = none ∧
    find_central_dir (List.replicate 22 0) = .ok 0 := by
  constructor <;> rfl

/-- C4.  The spec says gid is decoded from the length-prefixed bytes
immediately following the uid bytes.  The code's slice
`hbytes = hbytes[0:uid_len]` keeps the uid bytes instead of dropping them
(its own comment says "Remove the uid short/long"), so the gid length is
read from the first uid byte and the gid from the remaining uid bytes.  On
payload version=1, uid_len=2, uid=1000 (e8 03), gid_len=2, gid=2000 (d0 07)
the code returns gid = 3, not 2000. -/
theorem c4_gid_read_from_uid_bytes :
    _extra_field_uid_gid [1, 2, 0xe8, 0x03, 2, 0xd0, 0x07] =
      .ok ⟨1, some 1000, some 3⟩ ∧
    leNum [0xd0, 0x07] = 2000 ∧ (3 : Nat) ≠ 2000 := by
  refine ⟨rfl, rfl, by decide⟩

/-- C5 counterexample.  The claim says that in a central-directory context a
modification timestamp is present in the result only when the declared
length is greater than 1.  With declared length 1 the code still stores
mod_time (epoch 0), so the timestamp is present while 1 > 1 is false. -/
theorem c5_counterexample_mod_time_always_present :
    _extra_field_universal_time 1 [0] true = .ok ⟨some 0, none, none⟩ ∧
    ¬ (1 : Nat) > 1 := by
  exact ⟨rfl, by decide⟩

/-- C5 amended.  Universal-time decoding in a central-directory context
yields exactly one modification timestamp: decoded from payload bytes 1..5
when the declared length exceeds 1 and epoch 0 otherwise (never absent);
access and creation timestamps never appear.  In a local-file-header context
the three timestamps (modification, access, creation, in that order) are
each present exactly when the corresponding bit of the leading flag byte is
set. -/
theorem c5_amended_universal_time_gating :
    (∀ hlen hbytes, _extra_field_universal_time hlen hbytes true =
      .ok ⟨some (if 1 < hlen then leNum ((hbytes.drop 1).take 4) else 0), none, none⟩) ∧
    (∀ hlen flags rest, ∃ t,
      _extra_field_universal_time hlen (flags :: rest) false = .ok t ∧
      (t.mod_time.isSome ↔ flags &&& 1 ≠ 0) ∧
      (t.acc_time.isSome ↔ flags &&& 2 ≠ 0) ∧
      (t.cre_time.isSome ↔ flags &&& 4 ≠ 0)) := by
  constructor
  · intro hlen hbytes; rfl
  · intro hlen flags rest
    refine ⟨_, rfl, ?_, ?_, ?_⟩ <;> dsimp only [] <;> split <;> simp_all

/-- C8.  For files shorter than the 65558-byte maximum trailing window the
seek-from-end raises EINVAL and the code falls back to searching from
offset 0; the resulting window is the whole file, so the resolved offset is
the same as searching the file as a window directly. -/
theorem c8_small_file_window_same_result (file : List Nat)
    (h : file.length < 65558) :
    find_central_dir file = find_central_dir_block file := by
  unfold find_central_dir trailingWindow
  rw [if_pos h]

/-- C8 witness. -/
theorem c8_small_file_witness :
    (List.replicate 30 7).length < 65558 ∧
    find_central_dir (List.replicate 30 7) =
      find_central_dir_block (List.replicate 30 7) :=
  ⟨by decide, c8_small_file_window_same_result (List.replicate 30 7) (by decide)⟩

/-- Step of `noZip64Sub` with the same fuel discipline as
`parse_extra_fields_loop`. -/
def noZip64SubF : Nat → List Nat → Bool
  | 0, _ => true
  | fuel + 1, s =>
    if s = [] then true
    else if s.length < 4 then true
    else
      (decide (leNum (s.take 2) ≠ 1)) &&
        noZip64SubF fuel ((s.drop 4).drop (leNum ((s.drop 2).take 2)))

/-- True when no sub-record of the extra-field byte sequence carries the
zip64 id 0x0001 (trailing fragments shorter than a 4-byte sub-record header
are ignored; the loop fails on them before reaching any decoder). -/
def noZip64Sub (s : List Nat) : Bool := noZip64SubF (s.length + 1) s

theorem noZip64_preserves_ow_aux :
    ∀ fuel, ∀ s : List Nat, ∀ acc ow res, noZip64SubF fuel s = true →
      parse_extra_fields_loop fuel s acc ow true = .ok res → res.2 = ow := by
  intro fuel
  induction fuel with
  | zero =>
    intro s acc ow res _ hp
    exact Except.noConfusion hp
  | succ n ih =>
    intro s acc ow res hnz hp
    rw [parse_extra_fields_loop] at hp
    rw [noZip64SubF] at hnz
    by_cases hnil : s = []
    · rw [if_pos hnil] at hp
      cases hp
      rfl
    · rw [if_neg hnil] at hp
      rw [if_neg hnil] at hnz
      by_cases h4 : s.length < 4
      · rw [if_pos h4] at hp
        exact Except.noConfusion hp
      · rw [if_neg h4] at hnz
        rw [if_neg h4] at hp
        simp only [Bool.and_eq_true, decide_eq_true_eq] at hnz
        obtain ⟨hid1, hrest⟩ := hnz
        simp only [] at hp
        by_cases h21 : leNum (s.take 2) = 21589
        · rw [if_pos h21] at hp
          split at hp
          · exact Except.noConfusion hp
          · exact ih _ _ _ _ hrest hp
        · rw [if_neg h21] at hp
          by_cases h78 : leNum (s.take 2) = 30837
          · rw [if_pos h78] at hp
            split at hp
            · exact Except.noConfusion hp
            · exact ih _ _ _ _ hrest hp
          · rw [if_neg h78, if_neg hid1] at hp
            exact ih _ _ _ _ hrest hp

/-- C3.  Zip64 extra-field decoding reads uncompressed_size(64),
compressed_size(64), local_header_offset(64), disk_number(32) strictly in
that order, the declared payload length determining which are present; the
overwrite replaces exactly the fields present in the decoded record and
leaves the others (and nothing else) unchanged; and an extra-field area
containing no zip64 sub-record leaves the header's four 32-bit values
untouched. -/
theorem c3_zip64_order_presence_frame :
    (∀ hlen hbytes, hbytes.length = requiredZipLen hlen →
      _extra_field_zip64_extended_info hlen hbytes =
        .ok ⟨leNum (hbytes.take 8),
             if 8 < hlen then some (leNum ((hbytes.drop 8).take 8)) else none,
             if 16 < hlen then some (leNum ((hbytes.drop 16).take 8)) else none,
             if 24 < hlen then some (leNum ((hbytes.drop 24).take 4)) else none⟩) ∧
    (∀ z ow,
      (applyZip64 z ow).uncomp_len = z.uncomp_len ∧
      (z.comp_len = none → (applyZip64 z ow).comp_len = ow.comp_len) ∧
      (z.start = none → (applyZip64 z ow).start = ow.start) ∧
      (z.disk_num = none → (applyZip64 z ow).disk_num = ow.disk_num) ∧
      (∀ c, z.comp_len = some c → (applyZip64 z ow).comp_len = c) ∧
      (∀ c, z.start = some c → (applyZip64 z ow).start = c) ∧
      (∀ c, z.disk_num = some c → (applyZip64 z ow).disk_num = c)) ∧
    (∀ extra ow res, noZip64Sub extra = true →
      parse_extra_fields extra ow true = .ok res → res.2 = ow) := by
  refine ⟨?_, ?_, ?_⟩
  · intro hlen hbytes h
    unfold _extra_field_zip64_extended_info
    rw [if_neg (by omega)]
  · intro z ow
    refine ⟨rfl, ?_, ?_, ?_, ?_, ?_, ?_⟩ <;> intro h <;> try intro hh
    all_goals simp_all [applyZip64]
  · intro extra ow res hnz hp
    exact noZip64_preserves_ow_aux (extra.length + 1) extra [] ow res hnz hp

/-- C3 witness: a 16-byte zip64 payload decodes the first two fields in
order; an absent offset field leaves the header offset unchanged; an
extra-field area with only an unknown sub-record changes nothing. -/
theorem c3_zip64_witness :
    _extra_field_zip64_extended_info 16
      [1, 0, 0, 0, 0, 0, 0, 0, 2, 0, 0, 0, 0, 0, 0, 0] =
      .ok ⟨1, some 2, none, none⟩ ∧
    (applyZip64 ⟨1, none, some 5, none⟩ ⟨10, 11, 12, 13⟩).comp_len = 11 ∧
    (([(39321, ExtraVal.raw [7, 8])], (⟨5, 6, 7, 8⟩ : Ow)) :
        List (Nat × ExtraVal) × Ow).2 = ⟨5, 6, 7, 8⟩ :=
  ⟨c3_zip64_order_presence_frame.1 16 _ (by decide),
   (c3_zip64_order_presence_frame.2.1 ⟨1, none, some 5, none⟩ ⟨10, 11, 12, 13⟩).2.1 rfl,
   c3_zip64_order_presence_frame.2.2 [0x99, 0x99, 2, 0, 7, 8] ⟨5, 6, 7, 8⟩ _
     (by decide) (by rfl)⟩

theorem take_drop_of_take (l : List Nat) (a b c d : Nat) (h : c + b ≤ d) :
    (((l.drop a).take d).drop c).take b = (l.drop (a + c)).take b := by
  rw [List.drop_take, List.take_take, List.drop_drop]
  congr 1
  omega

theorem parse_ecdr_dir_start (l : List Nat) (h : 18 ≤ l.length) :
    ∃ e r, parse_endof_central_dir_record l = .ok (e, r) ∧
      e.dir_start = leNum ((l.drop 12).take 4) := by
  unfold parse_endof_central_dir_record
  rw [if_neg (by omega)]
  refine ⟨_, _, rfl, ?_⟩
  simp only [List.drop_drop]

theorem parse_ecdr64_dir_start (l : List Nat) (h : 52 ≤ l.length) :
    ∃ e r, parse_endof_central_dir_record_zip64 l = .ok (e, r) ∧
      e.dir_start = leNum ((l.drop 44).take 8) := by
  unfold parse_endof_central_dir_record_zip64
  rw [if_neg (by omega)]
  refine ⟨_, _, rfl, ?_⟩
  simp only [List.drop_drop]

/-- C2.  When the classic End-Of-Central-Directory record found in the
trailing window carries the 32-bit sentinel 0xffffffff as directory_start
and the window also contains a zip64 End-Of-Central-Directory record (with
a well-formed length field), `find_central_dir` returns the 64-bit
directory_start read from the zip64 record — the eight bytes at offset 48
past the zip64 signature — and never the 32-bit sentinel. -/
theorem c2_zip64_directory_start_override (file : List Nat) (i j : Nat)
    (h1 : findSub [0x50, 0x4b, 0x05, 0x06] (trailingWindow file) = some i)
    (h2 : i + 22 ≤ (trailingWindow file).length)
    (h3 : ((trailingWindow file).drop (i + 16)).take 4 = [255, 255, 255, 255])
    (h4 : findSub [0x50, 0x4b, 0x06, 0x06] (trailingWindow file) = some j)
    (h5 : j + 56 ≤ (trailingWindow file).length)
    (h6 : 44 ≤ leNum (((trailingWindow file).drop (j + 4)).take 8)) :
    find_central_dir file = .ok (leNum (((trailingWindow file).drop (j + 48)).take 8)) := by
  show find_central_dir_block (trailingWindow file) = _
  set block := trailingWindow file with hblk
  obtain ⟨e, r, hpe, hds⟩ := parse_ecdr_dir_start ((block.drop (i + 4)).take 18) (by
    simp only [List.length_take, List.length_drop]
    omega)
  obtain ⟨e64, r64, hpe64, hds64⟩ := parse_ecdr64_dir_start
      ((block.drop (j + 4)).take (leNum ((block.drop (j + 4)).take 8) + 8)) (by
    simp only [List.length_take, List.length_drop]
    omega)
  have hsent : e.dir_start = 0xffffffff := by
    rw [hds, take_drop_of_take block (i + 4) 4 12 18 (by omega),
        show i + 4 + 12 = i + 16 from by omega, h3]
    rfl
  have hlb : ¬ ((block.drop (j + 4)).take 8).length < 8 := by
    simp only [List.length_take, List.length_drop]
    omega
  unfold find_central_dir_block
  rw [h1, h4]
  simp only [hpe, hpe64, hlb, if_false, hsent, if_pos rfl]
  rw [hds64, take_drop_of_take block (j + 4) 8 44
        (leNum ((block.drop (j + 4)).take 8) + 8) (by omega),
      show j + 4 + 44 = j + 48 from by omega]
  simp

/-- Concrete zip64 trailing window: a zip64 End-Of-Central-Directory record
(directory_start 77) followed by a classic record whose directory_start is
the 32-bit sentinel. -/
def c2file : List Nat :=
  [0x50, 0x4b, 0x06, 0x06] ++ le64 44 ++ le16 0 ++ le16 0 ++ le32 0 ++ le32 0 ++
    le64 1 ++ le64 1 ++ le64 55 ++ le64 77 ++
  [0x50, 0x4b, 0x05, 0x06] ++ le16 0 ++ le16 0 ++ le16 1 ++ le16 1 ++ le32 55 ++
    le32 0xffffffff ++ le16 0

/-- C2 witness: on `c2file` the classic record (at window offset 56) holds
the sentinel and the zip64 record (at offset 0) holds 77, and
`find_central_dir` returns 77. -/
theorem c2_zip64_witness :
    findSub [0x50, 0x4b, 0x05, 0x06] (trailingWindow c2file) = some 56 ∧
    find_central_dir c2file = .ok 77 :=
  ⟨by decide,
   c2_zip64_directory_start_override c2file 56 0 (by decide) (by decide) (by decide)
     (by decide) (by decide) (by decide)⟩

theorem foldl_add_entry_length (files : List (List Nat × CatEntry)) (a : Nat) :
    files.foldl (fun a p => a + p.2.length) a =
      a + (files.map (fun p => p.2.length)).sum := by
  induction files generalizing a with
  | nil => simp
  | cons f t ih => simp [ih]; omega

/-- Central directory of the listing scenario: one zero-length entry named
empty.txt stamped 2023-12-31 12:51:02, followed by the classic
End-Of-Central-Directory record pointing at directory start 67. -/
def c9ScenarioBytes : List Nat :=
  [0x50, 0x4b, 0x01, 0x02] ++ le16 0 ++ le16 0 ++ le16 0 ++ le16 0 ++ le16 26209 ++
    le16 22431 ++ le32 0 ++ le32 0 ++ le32 0 ++ le16 9 ++ le16 0 ++ le16 0 ++
    le16 0 ++ le16 0 ++ le32 0 ++ le32 0 ++
  [101, 109, 112, 116, 121, 46, 116, 120, 116] ++
  [0x50, 0x4b, 0x05, 0x06] ++ le16 0 ++ le16 0 ++ le16 1 ++ le16 1 ++ le32 55 ++
    le32 67 ++ le16 0

/-- C9.  The rendered listing is exactly the fixed format: `Archive:` header,
column header, separator, one row per entry (length right-aligned in 9
columns, two spaces, ISO date-time to minute precision, three spaces, name),
trailing separator, and a totals row with the summed length right-aligned in
9 columns and the file count; and on the one-entry scenario the catalog is
exactly the stated single-entry mapping and the listing renders
byte-for-byte, ending with the totals row for 1 file. -/
theorem c9_listing_format_and_scenario :
    (∀ an files, pretty_print_files an files =
      ["Archive:  " ++ an,
       "  Length      Date    Time    Name",
       "---------  ---------- -----   ----"]
      ++ files.map (fun p => padNum p.2.length 9 ++ "  " ++
            isoMinutes p.2.date_time ++ "   " ++ bytesToStr p.1)
      ++ ["---------                     ----",
          padNum ((files.map (fun p => p.2.length)).sum) 9 ++
            "                     " ++ toString files.length ++ " files"]) ∧
    read_central_dir c9ScenarioBytes =
      .ok [([101, 109, 112, 116, 121, 46, 116, 120, 116],
            ⟨0, 0, ⟨2023, 12, 31, 12, 51, 2⟩, []⟩)] ∧
    pretty_print_files "empty.zip"
      [([101, 109, 112, 116, 121, 46, 116, 120, 116],
        ⟨0, 0, ⟨2023, 12, 31, 12, 51, 2⟩, []⟩)] =
      ["Archive:  empty.zip",
       "  Length      Date    Time    Name",
       "---------  ---------- -----   ----",
       "        0  2023-12-31 12:51   empty.txt",
       "---------                     ----",
       "        0                     1 files"] := by
  refine ⟨?_, by rfl, by rfl⟩
  intro an files
  unfold pretty_print_files listingRow
  rw [foldl_add_entry_length]
  simp

theorem parse_cdfh_rest_length (s : List Nat) (c : Cdfh) (r : List Nat)
    (h : parse_central_dir_file_header s = .ok (c, r)) : r.length ≤ s.length := by
  unfold parse_central_dir_file_header at h
  split at h
  · exact Except.noConfusion h
  · simp only [] at h
    split at h
    · exact Except.noConfusion h
    · split at h
      · exact Except.noConfusion h
      · cases h
        split <;> simp only [List.length_drop] <;> omega

theorem parse_ecdr_rest_length (s : List Nat) (e : Ecdr) (r : List Nat)
    (h : parse_endof_central_dir_record s = .ok (e, r)) : r.length ≤ s.length := by
  unfold parse_endof_central_dir_record at h
  split at h
  · exact Except.noConfusion h
  · simp only [] at h
    cases h
    split <;> simp only [List.length_drop] <;> omega

theorem parse_ecdr64_rest_length (s : List Nat) (e : Ecdr64) (r : List Nat)
    (h : parse_endof_central_dir_record_zip64 s = .ok (e, r)) : r.length ≤ s.length := by
  unfold parse_endof_central_dir_record_zip64 at h
  split at h
  · exact Except.noConfusion h
  · simp only [] at h
    cases h
    split <;> simp only [List.length_drop] <;> omega

theorem parse_ecdl64_rest_length (s : List Nat) (e : Ecdl64) (r : List Nat)
    (h : parse_endof_central_dir_locator_zip64 s = .ok (e, r)) : r.length ≤ s.length := by
  unfold parse_endof_central_dir_locator_zip64 at h
  split at h
  · exact Except.noConfusion h
  · simp only [] at h
    cases h
    simp only [List.length_drop]
    omega

/-- C10.  The central-directory walk terminates on every finite stream:
each loop iteration either exits (end of stream, unknown signature, or a
parse failure) or consumes the 4 signature bytes plus the dispatched
record's bytes before recursing, so stream-length-plus-one fuel is never
exhausted. -/
theorem c10_central_dir_walk_terminates :
    ∀ fuel (s : List Nat) acc, s.length < fuel →
      (read_central_dir_loop fuel s acc).isSome = true := by
  intro fuel
  induction fuel with
  | zero =>
    intro s acc h
    exact absurd h (Nat.not_lt_zero _)
  | succ n ih =>
    intro s acc h
    rw [read_central_dir_loop]
    by_cases h4 : (s.take 4).length < 4
    · rw [if_pos h4]
      rfl
    · rw [if_neg h4]
      have hs4 : 4 ≤ s.length := by
        simp only [List.length_take] at h4
        omega
      simp only []
      split
      · split
        · rfl
        next cdfh rest' heq =>
          have hle := parse_cdfh_rest_length _ _ _ heq
          simp only [List.length_drop] at hle
          exact ih _ _ (by omega)
      · split
        · split
          · rfl
          next e rest' heq =>
            have hle := parse_ecdr_rest_length _ _ _ heq
            simp only [List.length_drop] at hle
            exact ih _ _ (by omega)
        · split
          · split
            · rfl
            next e rest' heq =>
              have hle := parse_ecdr64_rest_length _ _ _ heq
              simp only [List.length_drop] at hle
              exact ih _ _ (by omega)
          · split
            · split
              · rfl
              next e rest' heq =>
                have hle := parse_ecdl64_rest_length _ _ _ heq
                simp only [List.length_drop] at hle
                exact ih _ _ (by omega)
            · rfl

/-- C10 witness: the walk over a 7-byte stream (a central-directory file
header signature followed by a truncated record) terminates within the fuel
`read_central_dir` supplies. -/
theorem c10_walk_terminates_witness :
    (read_central_dir_loop 8 [0x50, 0x4b, 0x01, 0x02, 1, 2, 3] []).isSome = true :=
  c10_central_dir_walk_terminates 8 [0x50, 0x4b, 0x01, 0x02, 1, 2, 3] [] (by decide)

/-- Payload shapes on which `_extra_field_uid_gid` returns without raising:
a version byte must exist; a version-1 payload additionally needs a uid
length byte, at least one byte after it, and a positive uid length (the
code's keep-instead-of-drop slice then still exposes a gid length byte). -/
def unixSafe : List Nat → Bool
  | [] => false
  | v :: rest =>
    if v ≠ 1 then true
    else
      match rest with
      | uid_len :: _ :: _ => decide (1 ≤ uid_len)
      | _ => false

theorem unixSafe_ok : ∀ b : List Nat, unixSafe b = true →
    ∃ u, _extra_field_uid_gid b = .ok u := by
  intro b h
  cases b with
  | nil => simp [unixSafe] at h
  | cons v rest =>
    by_cases hv : v ≠ 1
    · simp only [_extra_field_uid_gid, if_pos hv]
      exact ⟨_, rfl⟩
    · simp only [unixSafe, if_neg hv] at h
      cases rest with
      | nil => simp at h
      | cons u r1 =>
        cases r1 with
        | nil => simp at h
        | cons x r2 =>
          simp only [decide_eq_true_eq] at h
          obtain ⟨u', rfl⟩ : ∃ u', u = u' + 1 := ⟨u - 1, by omega⟩
          simp only [_extra_field_uid_gid, if_neg hv, List.take_succ_cons]
          exact ⟨_, rfl⟩

/-- Well-formedness of one sub-record for the central-directory decoders:
universal time never raises there, Unix ownership needs `unixSafe`, zip64
needs the exact payload size for its format, unknown ids are always safe. -/
def subSafeCd (hid hlen : Nat) (hbytes : List Nat) : Bool :=
  if hid = 30837 then unixSafe hbytes
  else if hid = 1 then decide (hbytes.length = requiredZipLen hlen)
  else true

/-- All sub-records of an extra-field byte sequence are well-formed and the
sequence splits exactly into sub-records (fuel-aligned with
`parse_extra_fields_loop`). -/
def allSafeF : Nat → List Nat → Bool
  | 0, _ => false
  | fuel + 1, s =>
    if s = [] then true
    else if s.length < 4 then false
    else
      subSafeCd (leNum (s.take 2)) (leNum ((s.drop 2).take 2))
          ((s.drop 4).take (leNum ((s.drop 2).take 2))) &&
        allSafeF fuel ((s.drop 4).drop (leNum ((s.drop 2).take 2)))

/-- Entry point of `allSafeF` with sufficient fuel. -/
def allSafe (s : List Nat) : Bool := allSafeF (s.length + 1) s

/-- Payload of the last sub-record with id `k`, fuel-aligned with the loop. -/
def lastRawF : Nat → List Nat → Nat → Option (List Nat)
  | 0, _, _ => none
  | fuel + 1, s, k =>
    if s = [] then none
    else if s.length < 4 then none
    else
      match lastRawF fuel ((s.drop 4).drop (leNum ((s.drop 2).take 2))) k with
      | some p => some p
      | none =>
        if leNum (s.take 2) = k then some ((s.drop 4).take (leNum ((s.drop 2).take 2)))
        else none

/-- Entry point of `lastRawF` with sufficient fuel. -/
def lastRaw (s : List Nat) (k : Nat) : Option (List Nat) := lastRawF (s.length + 1) s k

/-- Extra-field dictionary of a parse result, empty on failure. -/
def extra_result_map (r : Except String (List (Nat × ExtraVal) × Ow)) :
    List (Nat × ExtraVal) :=
  match r with
  | .ok p => p.1
  | .error _ => []

theorem lookupA_dictInsert {κ α : Type} [DecidableEq κ] (k k' : κ) (v : α)
    (l : List (κ × α)) :
    lookupA (dictInsert k v l) k' = if k = k' then some v else lookupA l k' := by
  induction l with
  | nil => simp [dictInsert, lookupA]
  | cons p t ih =>
    obtain ⟨a, b⟩ := p
    by_cases hak : a = k
    · subst hak
      by_cases hkk : a = k' <;> simp [dictInsert, lookupA, hkk]
    · by_cases hak' : a = k' <;> by_cases hkk : k = k' <;>
        simp_all [dictInsert, lookupA, ih]

theorem c7_safe_ok_aux :
    ∀ fuel (s : List Nat) acc ow, allSafeF fuel s = true →
      ∃ m ow2, parse_extra_fields_loop fuel s acc ow true = .ok (m, ow2) ∧
        ∀ k, k ≠ 21589 → k ≠ 30837 → k ≠ 1 →
          lookupA m k = (match lastRawF fuel s k with
            | some p => some (ExtraVal.raw p)
            | none => lookupA acc k) := by
  intro fuel
  induction fuel with
  | zero =>
    intro s acc ow h
    simp [allSafeF] at h
  | succ n ih =>
    intro s acc ow h
    rw [allSafeF] at h
    by_cases hnil : s = []
    · refine ⟨acc, ow, by rw [parse_extra_fields_loop, if_pos hnil], ?_⟩
      intro k _ _ _
      rw [lastRawF, if_pos hnil]
    · rw [if_neg hnil] at h
      by_cases h4 : s.length < 4
      · rw [if_pos h4] at h
        exact absurd h (by simp)
      · rw [if_neg h4] at h
        simp only [Bool.and_eq_true] at h
        obtain ⟨hsafe, hrest⟩ := h
        rw [parse_extra_fields_loop, if_neg hnil, if_neg h4]
        simp only []
        by_cases h21 : leNum (s.take 2) = 21589
        · rw [if_pos h21]
          generalize hT : _extra_field_universal_time (leNum ((s.drop 2).take 2))
            ((s.drop 4).take (leNum ((s.drop 2).take 2))) true = res
          cases res with
          | error e => simp [_extra_field_universal_time] at hT
          | ok t =>
            obtain ⟨m, ow2, hp, hlk⟩ := ih ((s.drop 4).drop (leNum ((s.drop 2).take 2)))
              (dictInsert (leNum (s.take 2)) (ExtraVal.time t) acc) ow hrest
            refine ⟨m, ow2, hp, ?_⟩
            intro k hk1 hk2 hk3
            rw [hlk k hk1 hk2 hk3, lastRawF, if_neg hnil, if_neg h4]
            cases hlr : lastRawF n ((s.drop 4).drop (leNum ((s.drop 2).take 2))) k <;>
              simp [hlr, lookupA_dictInsert, h21, Ne.symm hk1]
        · rw [if_neg h21]
          by_cases h78 : leNum (s.take 2) = 30837
          · rw [if_pos h78]
            rw [subSafeCd, h78, if_pos rfl] at hsafe
            obtain ⟨u, hu⟩ := unixSafe_ok _ hsafe
            rw [hu]
            obtain ⟨m, ow2, hp, hlk⟩ := ih ((s.drop 4).drop (leNum ((s.drop 2).take 2)))
              (dictInsert (leNum (s.take 2)) (ExtraVal.unix u) acc) ow hrest
            refine ⟨m, ow2, hp, ?_⟩
            intro k hk1 hk2 hk3
            rw [hlk k hk1 hk2 hk3, lastRawF, if_neg hnil, if_neg h4]
            cases hlr : lastRawF n ((s.drop 4).drop (leNum ((s.drop 2).take 2))) k <;>
              simp [hlr, lookupA_dictInsert, h78, Ne.symm hk2]
          · rw [if_neg h78]
            by_cases h01 : leNum (s.take 2) = 1
            · rw [if_pos h01]
              rw [subSafeCd, h01, if_neg (by omega), if_pos rfl, decide_eq_true_eq] at hsafe
              generalize hT : _extra_field_zip64_extended_info (leNum ((s.drop 2).take 2))
                ((s.drop 4).take (leNum ((s.drop 2).take 2))) = res
              cases res with
              | error e =>
                rw [_extra_field_zip64_extended_info, if_neg (by omega)] at hT
                exact Except.noConfusion hT
              | ok z =>
                obtain ⟨m, ow2, hp, hlk⟩ := ih ((s.drop 4).drop (leNum ((s.drop 2).take 2)))
                  (dictInsert (leNum (s.take 2)) (ExtraVal.zip64 z) acc) (applyZip64 z ow) hrest
                refine ⟨m, ow2, hp, ?_⟩
                intro k hk1 hk2 hk3
                rw [hlk k hk1 hk2 hk3, lastRawF, if_neg hnil, if_neg h4]
                cases hlr : lastRawF n ((s.drop 4).drop (leNum ((s.drop 2).take 2))) k <;>
                  simp [hlr, lookupA_dictInsert, h01, Ne.symm hk3]
            · rw [if_neg h01]
              obtain ⟨m, ow2, hp, hlk⟩ := ih ((s.drop 4).drop (leNum ((s.drop 2).take 2)))
                (dictInsert (leNum (s.take 2)) (ExtraVal.raw
                  ((s.drop 4).take (leNum ((s.drop 2).take 2)))) acc) ow hrest
              refine ⟨m, ow2, hp, ?_⟩
              intro k hk1 hk2 hk3
              rw [hlk k hk1 hk2 hk3, lastRawF, if_neg hnil, if_neg h4]
              by_cases hkk : leNum (s.take 2) = k
              · cases hlr : lastRawF n ((s.drop 4).drop (leNum ((s.drop 2).take 2))) k <;>
                  simp [hlr, lookupA_dictInsert, hkk]
              · cases hlr : lastRawF n ((s.drop 4).drop (leNum ((s.drop 2).take 2))) k <;>
                  simp [hlr, lookupA_dictInsert, hkk]

/-- Central-directory stream whose single file header carries a malformed
zip64 extra field (id 0x0001 declaring 1 payload byte). -/
def c7AbortStream : List Nat :=
  [0x50, 0x4b, 0x01, 0x02] ++ le16 0 ++ le16 0 ++ le16 0 ++ le16 0 ++ le16 0 ++
    le16 33 ++ le32 0 ++ le32 0 ++ le32 0 ++ le16 1 ++ le16 5 ++ le16 0 ++
    le16 0 ++ le16 0 ++ le32 0 ++ le32 0 ++ [97] ++ [1, 0, 1, 0, 0]

/-- C7 counterexample.  The claim quantifies over every extra-field byte
sequence, but a recognised sub-record that is malformed does abort: a zip64
sub-record declaring a 1-byte payload makes `struct.unpack` raise,
`parse_extra_fields` propagates the error, and the catalog walk over a
stream whose file header carries that extra field aborts instead of
returning a catalog. -/
theorem c7_counterexample_malformed_zip64_aborts :
    parse_extra_fields [1, 0, 1, 0, 0] ⟨0, 0, 0, 0⟩ true = .error "struct.error" ∧
    read_central_dir c7AbortStream = .error "struct.error" := by
  exact ⟨rfl, rfl⟩

/-- C7 amended.  An unknown sub-record id never aborts the catalog walk: it
is stored verbatim as opaque bytes (the printed diagnostic is non-fatal) and
`parse_extra_fields` returns normally — provided every recognised
sub-record (universal time, Unix ownership, zip64) in the same extra-field
area is well-formed; a malformed recognised sub-record raises and aborts
the walk. -/
theorem c7_amended_unknown_ids_never_abort :
    ∀ (s : List Nat) (ow : Ow), allSafe s = true →
      (parse_extra_fields s ow true).isOk = true ∧
      ∀ k, k ≠ 21589 → k ≠ 30837 → k ≠ 1 →
        lookupA (extra_result_map (parse_extra_fields s ow true)) k =
          (lastRaw s k).map ExtraVal.raw := by
  intro s ow h
  obtain ⟨m, ow2, hp, hlk⟩ := c7_safe_ok_aux (s.length + 1) s [] ow h
  constructor
  · show (parse_extra_fields_loop (s.length + 1) s [] ow true).isOk = true
    rw [hp]
    rfl
  · intro k hk1 hk2 hk3
    show lookupA (extra_result_map (parse_extra_fields_loop (s.length + 1) s [] ow true)) k = _
    rw [hp]
    show lookupA m k = (lastRaw s k).map ExtraVal.raw
    rw [hlk k hk1 hk2 hk3]
    cases hlr : lastRawF (s.length + 1) s k <;> simp [lastRaw, hlr, lookupA]

/-- C7 witness: an extra-field area holding one unknown sub-record
(id 0x9999, payload 07 08) decodes without error and stores the payload
verbatim under its id. -/
theorem c7_unknown_id_witness :
    allSafe [0x99, 0x99, 2, 0, 7, 8] = true ∧
    (parse_extra_fields [0x99, 0x99, 2, 0, 7, 8] ⟨5, 6, 7, 8⟩ true).isOk = true ∧
    lookupA (extra_result_map
      (parse_extra_fields [0x99, 0x99, 2, 0, 7, 8] ⟨5, 6, 7, 8⟩ true)) 39321 =
      some (ExtraVal.raw [7, 8]) :=
  ⟨by decide,
   (c7_amended_unknown_ids_never_abort [0x99, 0x99, 2, 0, 7, 8] ⟨5, 6, 7, 8⟩ (by decide)).1,
   by
     rw [(c7_amended_unknown_ids_never_abort [0x99, 0x99, 2, 0, 7, 8] ⟨5, 6, 7, 8⟩
       (by decide)).2 39321 (by decide) (by decide) (by decide)]
     rfl⟩

/-- Parameters of one central-directory file header for the catalog-walk
theorem: name bytes, local-header offset, uncompressed size, DOS time and
date. -/
structure EntrySpec where
  fname : List Nat
  start : Nat
  uncomp : Nat
  time : Nat
  date : Nat
deriving DecidableEq, Repr

/-- Field bounds making one header encodable and its DOS date valid. -/
def wfEntry (e : EntrySpec) : Bool :=
  decide (e.fname.length < 2 ^ 16) && decide (e.start < 2 ^ 32) &&
  decide (e.uncomp < 2 ^ 32) && decide (e.time < 2 ^ 16) &&
  decide (e.date < 2 ^ 16) && validDT (decodeDT e.time e.date)

/-- The 42 fixed bytes plus name of a central-directory file header (other
fields zero, no extra field, no comment). -/
def encodeCdfhBody (e : EntrySpec) : List Nat :=
  le16 0 ++ le16 0 ++ le16 0 ++ le16 0 ++ le16 e.time ++ le16 e.date ++
  le32 0 ++ le32 0 ++ le32 e.uncomp ++ le16 e.fname.length ++ le16 0 ++
  le16 0 ++ le16 0 ++ le16 0 ++ le32 0 ++ le32 e.start ++ e.fname

/-- A full encoded central-directory file header, signature included. -/
def encodeCdfh (e : EntrySpec) : List Nat :=
  [0x50, 0x4b, 0x01, 0x02] ++ encodeCdfhBody e

/-- Catalog data the walk stores for one such header. -/
def entryData (e : EntrySpec) : CatEntry :=
  ⟨e.start, e.uncomp, decodeDT e.time e.date, []⟩

/-- The decoded header `parse_central_dir_file_header` produces for an
encoded entry. -/
def cdfhOf (e : EntrySpec) : Cdfh :=
  ⟨0, 0, 0, 0, e.time, e.date, 0, 0, e.uncomp, e.fname.length, 0, 0, 0, 0, 0,
   e.start, e.fname, decodeDT e.time e.date, [], []⟩

theorem take2_cons (a b : Nat) (l : List Nat) : (a :: b :: l).take 2 = [a, b] := rfl

theorem drop2_cons (a b : Nat) (l : List Nat) : (a :: b :: l).drop 2 = l := rfl

theorem take4_cons (a b c d : Nat) (l : List Nat) :
    (a :: b :: c :: d :: l).take 4 = [a, b, c, d] := rfl

theorem drop4_cons (a b c d : Nat) (l : List Nat) :
    (a :: b :: c :: d :: l).drop 4 = l := rfl

theorem parse_cdfh_cons
    (v0 v1 v2 v3 v4 v5 v6 v7 v8 v9 v10 v11 v12 v13 v14 v15 v16 v17 v18 v19
     v20 v21 v22 v23 v24 v25 v26 v27 v28 v29 v30 v31 v32 v33 v34 v35 v36 v37
     v38 v39 v40 v41 : Nat) (fname rest : List Nat)
    (hfn : leNum [v24, v25] = fname.length)
    (hex : leNum [v26, v27] = 0)
    (hcm : leNum [v28, v29] = 0)
    (hdt : validDT (decodeDT (leNum [v8, v9]) (leNum [v10, v11])) = true) :
    parse_central_dir_file_header
      (v0 :: v1 :: v2 :: v3 :: v4 :: v5 :: v6 :: v7 :: v8 :: v9 :: v10 :: v11 ::
       v12 :: v13 :: v14 :: v15 :: v16 :: v17 :: v18 :: v19 :: v20 :: v21 :: v22 ::
       v23 :: v24 :: v25 :: v26 :: v27 :: v28 :: v29 :: v30 :: v31 :: v32 :: v33 ::
       v34 :: v35 :: v36 :: v37 :: v38 :: v39 :: v40 :: v41 :: (fname ++ rest)) =
      .ok (⟨leNum [v0, v1], leNum [v2, v3], leNum [v4, v5], leNum [v6, v7],
            leNum [v8, v9], leNum [v10, v11], leNum [v12, v13, v14, v15],
            leNum [v16, v17, v18, v19], leNum [v20, v21, v22, v23],
            fname.length, 0, 0, leNum [v30, v31], leNum [v32, v33],
            leNum [v34, v35, v36, v37], leNum [v38, v39, v40, v41], fname,
            decodeDT (leNum [v8, v9]) (leNum [v10, v11]), [], []⟩, rest) := by
  unfold parse_central_dir_file_header
  rw [if_neg (by simp)]
  simp only [take2_cons, drop2_cons, take4_cons, drop4_cons]
  rw [hfn, hex, hcm]
  simp only [hdt, List.take_left, List.drop_left, List.take_zero, List.drop_zero]
  simp [parse_extra_fields, parse_extra_fields_loop]

theorem leNum_pair_mod (x : Nat) (h : x < 2 ^ 16) :
    leNum [x % 256, x / 256 % 256] = x := by
  simp [leNum]
  omega

theorem leNum_quad_mod (x : Nat) (h : x < 2 ^ 32) :
    leNum [x % 256, x / 256 % 256, x / 2 ^ 16 % 256, x / 2 ^ 24 % 256] = x := by
  simp [leNum]
  omega

theorem parse_encode_cdfh (e : EntrySpec) (rest : List Nat)
    (hwf : wfEntry e = true) :
    parse_central_dir_file_header (encodeCdfhBody e ++ rest) = .ok (cdfhOf e, rest) := by
  simp only [wfEntry, Bool.and_eq_true, decide_eq_true_eq] at hwf
  obtain ⟨⟨⟨⟨⟨hfl, hst⟩, hun⟩, hti⟩, hda⟩, hdt⟩ := hwf
  have hz : leNum [0 % 256, 0 / 256 % 256] = 0 := by simp [leNum]
  have ht2 := leNum_pair_mod e.time hti
  have hd2 := leNum_pair_mod e.date hda
  have hf2 := leNum_pair_mod e.fname.length hfl
  have hu4 := leNum_quad_mod e.uncomp hun
  have hs4 := leNum_quad_mod e.start hst
  simp only [encodeCdfhBody, le16, le32, List.cons_append, List.nil_append,
    List.append_assoc]
  rw [parse_cdfh_cons _ _ _ _ _ _ _ _ _ _ _ _ _ _ _ _ _ _ _ _ _ _ _ _ _ _ _ _ _ _
      _ _ _ _ _ _ _ _ _ _ _ _ e.fname rest hf2 hz hz (by rw [ht2, hd2]; exact hdt)]
  simp only [cdfhOf, ht2, hd2, hu4, hs4, hz]
  norm_num [leNum]

theorem c6_loop (es : List EntrySpec) :
    ∀ fuel (acc : List (List Nat × CatEntry)), (∀ e ∈ es, wfEntry e = true) →
      es.length < fuel →
      read_central_dir_loop fuel ((es.map encodeCdfh).flatten) acc =
        some (.ok (es.foldl (fun acc e => dictInsert e.fname (entryData e) acc) acc)) := by
  induction es with
  | nil =>
    intro fuel acc _ hf
    obtain ⟨n, rfl⟩ : ∃ n, fuel = n + 1 := ⟨fuel - 1, by omega⟩
    rfl
  | cons e es ih =>
    intro fuel acc hwf hf
    obtain ⟨n, rfl⟩ : ∃ n, fuel = n + 1 := ⟨fuel - 1, by omega⟩
    have hs : ((e :: es).map encodeCdfh).flatten =
        0x50 :: 0x4b :: 0x01 :: 0x02 :: (encodeCdfhBody e ++ (es.map encodeCdfh).flatten) := by
      simp [encodeCdfh]
    rw [read_central_dir_loop, hs]
    rw [show (0x50 :: 0x4b :: 0x01 :: 0x02 ::
          (encodeCdfhBody e ++ (es.map encodeCdfh).flatten)).take 4 = [0x50, 0x4b, 0x01, 0x02]
        from rfl]
    rw [if_neg (by simp)]
    simp only []
    rw [show leNum [0x50, 0x4b, 0x01, 0x02] = 0x02014b50 from rfl, if_pos rfl]
    rw [show (0x50 :: 0x4b :: 0x01 :: 0x02 ::
          (encodeCdfhBody e ++ (es.map encodeCdfh).flatten)).drop 4 =
          encodeCdfhBody e ++ (es.map encodeCdfh).flatten from rfl]
    rw [parse_encode_cdfh e _ (hwf e (List.mem_cons_self e es))]
    simp only [List.foldl_cons]
    exact ih n _ (fun x hx => hwf x (List.mem_cons_of_mem e hx)) (by simpa using hf)

theorem dictInsert_keys {κ α : Type} [DecidableEq κ] (k : κ) (v : α) (l : List (κ × α)) :
    (dictInsert k v l).map Prod.fst =
      if k ∈ l.map Prod.fst then l.map Prod.fst else l.map Prod.fst ++ [k] := by
  induction l with
  | nil => simp [dictInsert]
  | cons p t ih =>
    obtain ⟨a, b⟩ := p
    by_cases hak : a = k
    · subst hak
      simp [dictInsert]
    · by_cases hk : k ∈ t.map Prod.fst <;>
        simp [dictInsert, hak, ih, hk, Ne.symm hak]

theorem foldl_catStep_keys (es : List EntrySpec) :
    ∀ acc : List (List Nat × CatEntry),
      ((es.foldl (fun acc e => dictInsert e.fname (entryData e) acc) acc).map Prod.fst) =
        (es.map EntrySpec.fname).foldl
          (fun ks k => if k ∈ ks then ks else ks ++ [k]) (acc.map Prod.fst) := by
  induction es with
  | nil => intro acc; rfl
  | cons e t ih =>
    intro acc
    simp only [List.foldl_cons, List.map_cons]
    rw [ih, dictInsert_keys]
    congr 1
    by_cases h : e.fname ∈ List.map Prod.fst acc <;> simp [h]

/-- Catalog data of the last header bearing name `k` in a header sequence. -/
def lastData (k : List Nat) : List EntrySpec → Option CatEntry
  | [] => none
  | e :: es =>
    match lastData k es with
    | some d => some d
    | none => if e.fname = k then some (entryData e) else none

theorem foldl_catStep_lookup (es : List EntrySpec) :
    ∀ (acc : List (List Nat × CatEntry)) (k : List Nat),
      lookupA (es.foldl (fun acc e => dictInsert e.fname (entryData e) acc) acc) k =
        (match lastData k es with
         | some d => some d
         | none => lookupA acc k) := by
  induction es with
  | nil => intro acc k; rfl
  | cons e t ih =>
    intro acc k
    simp only [List.foldl_cons]
    rw [ih, lastData]
    cases hld : lastData k t
    · by_cases hek : e.fname = k <;> simp [hld, lookupA_dictInsert, hek]
    · simp [hld]

/-- Keys in order of first occurrence (Python dict iteration order under
repeated assignment to the same key). -/
def dedupFirst (l : List (List Nat)) : List (List Nat) :=
  l.foldl (fun ks k => if k ∈ ks then ks else ks ++ [k]) []

theorem join_encode_length (es : List EntrySpec) :
    es.length ≤ ((es.map encodeCdfh).flatten).length := by
  induction es with
  | nil => simp
  | cons e t ih =>
    simp only [List.map_cons, List.flatten_cons, List.length_append, List.length_cons]
    have : 0 < (encodeCdfh e).length := by simp [encodeCdfh]
    omega

/-- C6.  The catalog the walk builds from a sequence of encoded
central-directory file headers maps each name to the data of the last
header bearing that name (a later duplicate silently replaces the earlier
entry's data in place), and the catalog's key order is the directory order
of first occurrence of each name. -/
theorem c6_duplicate_names_and_order (es : List EntrySpec)
    (hwf : ∀ e ∈ es, wfEntry e = true) :
    read_central_dir ((es.map encodeCdfh).flatten) =
      .ok (es.foldl (fun acc e => dictInsert e.fname (entryData e) acc) []) ∧
    ((es.foldl (fun acc e => dictInsert e.fname (entryData e) acc) []).map Prod.fst) =
      dedupFirst (es.map EntrySpec.fname) ∧
    ∀ k, lookupA (es.foldl (fun acc e => dictInsert e.fname (entryData e) acc) []) k =
      lastData k es := by
  refine ⟨?_, ?_, ?_⟩
  · unfold read_central_dir
    rw [c6_loop es _ [] hwf (by have := join_encode_length es; omega)]
    rfl
  · rw [foldl_catStep_keys]
    rfl
  · intro k
    rw [foldl_catStep_lookup]
    cases hld : lastData k es <;> simp [hld, lookupA]

/-- Three headers, the first two sharing one name. -/
def c6Entries : List EntrySpec :=
  [⟨[97], 5, 7, 0, 33⟩, ⟨[97], 9, 8, 0, 33⟩, ⟨[98], 3, 4, 0, 33⟩]

/-- C6 witness: with a duplicate name the catalog keeps one entry per name
in first-occurrence order and the duplicate name maps to the later header's
data. -/
theorem c6_duplicate_names_witness :
    read_central_dir ((c6Entries.map encodeCdfh).flatten) =
      .ok (c6Entries.foldl (fun acc e => dictInsert e.fname (entryData e) acc) []) ∧
    lookupA (c6Entries.foldl (fun acc e => dictInsert e.fname (entryData e) acc) []) [97] =
      some ⟨9, 8, decodeDT 0 33, []⟩ ∧
    ((c6Entries.foldl (fun acc e => dictInsert e.fname (entryData e) acc) []).map Prod.fst) =
      [[97], [98]] :=
  ⟨(c6_duplicate_names_and_order c6Entries (by decide)).1,
   by rw [(c6_duplicate_names_and_order c6Entries (by decide)).2.2 [97]]; rfl,
   by rw [(c6_duplicate_names_and_order c6Entries (by decide)).2.1]; rfl⟩
